import Mathlib

/-!
Verification of the per-directory photo-edit metadata store and its geometry
library (repository `m0g/ansel`). The definitions below are a shallow
embedding of the TypeScript sources:

  * `src/unnamed/part_000`             — the 2D geometry library
  * `src/src/background/store/PhotoWorkStore.ts` — the sidecar store, the
    legacy `picasa.ini` importer and the per-directory cache registry.

Numbers are embedded as exact rationals (`ℚ`).  The JavaScript `NaN`
sentinel that signals a degenerate geometric configuration is embedded as
`Option.none`.  String-keyed JavaScript objects are embedded as association
lists that preserve insertion order, which is what `JSON.stringify` and
`Object.keys` observe for the (non array-index) photo-basename keys used by
the store.
-/

set_option maxHeartbeats 1000000

section AnselVerification

attribute [local semireducible] Rat.add Rat.sub Rat.mul Rat.inv

namespace Ansel

/-! ### JavaScript object model -/

/-- Model of a string-keyed JavaScript object: an association list in
insertion order. -/
abbrev JsObj (α : Type) : Type := List (String × α)

/-- Property read `obj[k]`: the value at the first matching key. -/
def jsLookup {α : Type} (m : JsObj α) (k : String) : Option α :=
  (m.find? (fun p => p.1 == k)).map (fun p => p.2)

/-- Property write `obj[k] = v`: updates an existing key in place (keeping
its position) or appends a new one, as JavaScript objects do. -/
def jsSet {α : Type} : JsObj α → String → α → JsObj α
  | [], k, v => [(k, v)]
  | (k₁, v₁) :: rest, k, v =>
    if k₁ == k then (k, v) :: rest else (k₁, v₁) :: jsSet rest k v

/-- Property removal `delete obj[k]`. -/
def jsDelete {α : Type} : JsObj α → String → JsObj α
  | [], _ => []
  | (k₁, v₁) :: rest, k =>
    if k₁ == k then rest else (k₁, v₁) :: jsDelete rest k

/-- The key list `Object.keys(obj)`, in insertion order. -/
def jsKeys {α : Type} (m : JsObj α) : List String :=
  m.map (fun p => p.1)

/-- Lexicographic comparison of code-unit lists, the order
`Array.prototype.sort` applies to strings. -/
def charListLe : List Char → List Char → Bool
  | [], _ => true
  | _ :: _, [] => false
  | a :: as, b :: bs =>
    if a.toNat < b.toNat then true
    else if b.toNat < a.toNat then false
    else charListLe as bs

/-- JavaScript string comparison used by `Array.prototype.sort`. -/
def strLe (a b : String) : Bool := charListLe a.toList b.toList

/-- Insertion step of the key sort. -/
def insertSorted (k : String) : List String → List String
  | [] => [k]
  | k₁ :: rest =>
    if strLe k k₁ then k :: k₁ :: rest else k₁ :: insertSorted k rest

/-- Sorted copy of a key list (`Object.keys(obj).sort()`). -/
def sortStrings (l : List String) : List String :=
  l.foldr insertSorted []

/-- Embedding of `toCanonical` (PhotoWorkStore.ts lines 376-383): a copy of
the object whose keys are visited in sorted order. -/
def toCanonical {α : Type} (m : JsObj α) : JsObj α :=
  (sortStrings (jsKeys m)).filterMap (fun k => (jsLookup m k).map (fun v => (k, v)))

/-! ### Geometry library (`src/unnamed/part_000`), over exact rationals -/

/-- A 2D point / vector. -/
abbrev Vec : Type := ℚ × ℚ

/-- The `Rect` record `{x, y, width, height}`. -/
structure Rect where
  x : ℚ
  y : ℚ
  width : ℚ
  height : ℚ
  deriving DecidableEq, Repr

/-- Embedding of `getRectFromPoints` (part_000 lines 63-70). -/
def getRectFromPoints (point1 point2 : Vec) : Rect :=
  { x := min point1.1 point2.1
    y := min point1.2 point2.2
    width := |point1.1 - point2.1|
    height := |point1.2 - point2.2| }

/-- Embedding of `intersectPlainLines` (part_000 lines 97-112).  The
`outFactors` pair is returned; the both-`NaN` outcome of a zero determinant
is embedded as `none`. -/
def intersectPlainLines (startX1 startY1 endX1 endY1 startX2 startY2 endX2 endY2 : ℚ) :
    Option (ℚ × ℚ) :=
  let vX1 := endX1 - startX1
  let vY1 := endY1 - startY1
  let vX2 := endX2 - startX2
  let vY2 := endY2 - startY2
  let f := vX2 * vY1 - vX1 * vY2
  if f = 0 then
    none
  else
    let vX3 := startX2 - startX1
    let vY3 := startY2 - startY1
    some ((vX2 * vY3 - vX3 * vY2) / f, (vX1 * vY3 - vX3 * vY1) / f)

/-- The constant `epsilon` (part_000 line 134). -/
def epsilon : ℚ := 1 / 10000000

/-- The polygon edge list visited by the `for (i = 0, j = size - 1; ...)`
loops: pairs `(points[i], points[j])` where `j` is the predecessor of `i`
cyclically. -/
def polygonEdges (points : List Vec) : List (Vec × Vec) :=
  match points.getLast? with
  | none => []
  | some last => points.zip (last :: points.dropLast)

/-- One iteration of the `cutLineWithPolygon` loop body (part_000 lines
150-158): intersect the edge with the line, and if the factor on the edge
is within `[0,1]`, fold the line factor into `bestFactor` using the
asymmetric epsilon tie-break. -/
def cutStep (lineStart lineEnd : Vec) (bestFactor : Option ℚ) (edge : Vec × Vec) :
    Option ℚ :=
  match intersectPlainLines edge.1.1 edge.1.2 edge.2.1 edge.2.2
      lineStart.1 lineStart.2 lineEnd.1 lineEnd.2 with
  | none => bestFactor
  | some (t₀, t₁) =>
    if 0 ≤ t₀ ∧ t₀ ≤ 1 then
      match bestFactor with
      | none => some t₁
      | some b =>
        if (if epsilon ≤ t₁ ∧ epsilon ≤ b then t₁ < b else b < t₁) then some t₁
        else some b
    else bestFactor

/-- The `bestFactor` computed by `cutLineWithPolygon` (part_000 lines
146-159), also reported through `outFactor`. -/
def cutLineBestFactor (lineStart lineEnd : Vec) (polygonPoints : List Vec) : Option ℚ :=
  (polygonEdges polygonPoints).foldl (cutStep lineStart lineEnd) none

/-- Embedding of `cutLineWithPolygon` (part_000 lines 143-173): `none` for
the `null` return, otherwise the point on the line at `bestFactor`. -/
def cutLineWithPolygon (lineStart lineEnd : Vec) (polygonPoints : List Vec) :
    Option Vec :=
  (cutLineBestFactor lineStart lineEnd polygonPoints).map
    (fun b => (lineStart.1 + b * (lineEnd.1 - lineStart.1),
               lineStart.2 + b * (lineEnd.2 - lineStart.2)))

/-- The candidate line factor contributed by one polygon edge: the line
parameter `outFactors[1]` of its intersection with the line, kept exactly
when the factor `outFactors[0]` on the edge lies in `[0,1]`. -/
def candOfEdge (lineStart lineEnd : Vec) (edge : Vec × Vec) : Option ℚ :=
  match intersectPlainLines edge.1.1 edge.1.2 edge.2.1 edge.2.2
      lineStart.1 lineStart.2 lineEnd.1 lineEnd.2 with
  | none => none
  | some (t₀, t₁) => if 0 ≤ t₀ ∧ t₀ ≤ 1 then some t₁ else none

/-- The line factors of the in-bounds crossings that the loop considers, in
edge order. -/
def inBoundsCrossingFactors (lineStart lineEnd : Vec) (polygonPoints : List Vec) :
    List ℚ :=
  (polygonEdges polygonPoints).filterMap (candOfEdge lineStart lineEnd)

/-- The in-bounds crossing factors at or past `epsilon`. -/
def geFactors (lineStart lineEnd : Vec) (polygonPoints : List Vec) : List ℚ :=
  (inBoundsCrossingFactors lineStart lineEnd polygonPoints).filter
    (fun t => decide (epsilon ≤ t))

/-- The `bestFactor` update applied to one in-bounds candidate (the inner
conditional of part_000 line 155). -/
def updateBest (bestFactor : Option ℚ) (c : ℚ) : Option ℚ :=
  match bestFactor with
  | none => some c
  | some b =>
    if (if epsilon ≤ c ∧ epsilon ≤ b then c < b else b < c) then some c else some b

/-- Minimum of a list of rationals, `none` on the empty list. -/
def ratMinList : List ℚ → Option ℚ :=
  List.foldl (fun acc c => match acc with | none => some c | some b => some (min b c)) none

/-- Maximum of a list of rationals, `none` on the empty list. -/
def ratMaxList : List ℚ → Option ℚ :=
  List.foldl (fun acc c => match acc with | none => some c | some b => some (max b c)) none

/-! ### Legacy rule grammar (`PhotoWorkStore.ts` lines 262-268) -/

/-- Decimal digit test (the regex class `\d`). -/
def isDecDigit (c : Char) : Bool := '0' ≤ c && c ≤ '9'

/-- Lowercase hex digit test (the regex class `[0-9a-f]`). -/
def isLowerHex (c : Char) : Bool := isDecDigit c || ('a' ≤ c && c ≤ 'f')

/-- Numeric value of one hex digit. -/
def hexDigitVal (c : Char) : ℕ :=
  if isDecDigit c then c.toNat - 48 else c.toNat - 87

/-- Value of an all-digit string (`parseInt(s)` on such input). -/
def decValue (cs : List Char) : ℕ :=
  cs.foldl (fun acc c => 10 * acc + (c.toNat - 48)) 0

/-- Value of an all-hex string (`parseInt(s, 16)` on such input). -/
def hexValue (cs : List Char) : ℕ :=
  cs.foldl (fun acc c => 16 * acc + hexDigitVal c) 0

/-- Leading-prefix float parse: the behaviour of JavaScript `parseFloat` on
strings over the alphabet `-`, digits and `.` — the only strings the tilt
filter regex can capture.  `none` embeds the `NaN` result. -/
def parseJsFloat (s : String) : Option ℚ :=
  let cs := s.toList
  let neg := cs.head? = some '-'
  let cs₁ := if neg then cs.drop 1 else cs
  let intPart := cs₁.takeWhile isDecDigit
  let rest₁ := cs₁.dropWhile isDecDigit
  let fracPart := match rest₁ with
    | '.' :: rest₂ => rest₂.takeWhile isDecDigit
    | _ => []
  if intPart.isEmpty && fracPart.isEmpty then none
  else
    let mag : ℚ := (decValue intPart : ℚ) + (decValue fracPart : ℚ) / ((10 : ℚ) ^ fracPart.length)
    some (if neg then -mag else mag)

/-- Strip an anchored literal prefix and suffix (the fixed parts of a
`^pre(...)suf$` regex); the group alphabet never contains the suffix
character, so no backtracking choice exists. -/
def stripAround (pre suf cs : List Char) : Option (List Char) :=
  if pre.isPrefixOf cs && suf.isSuffixOf (cs.drop pre.length) then
    some ((cs.drop pre.length).take ((cs.drop pre.length).length - suf.length))
  else none

/-- Model of `rotateRuleRegExp = /^rotate=rotate\((\d+)\)$/` with the
captured group parsed by `parseInt`. -/
def rotateRuleMatch (rule : String) : Option ℕ :=
  match stripAround "rotate=rotate(".toList ")".toList rule.toList with
  | none => none
  | some mid => if !mid.isEmpty && mid.all isDecDigit then some (decValue mid) else none

/-- Model of `filtersRuleRegExp = /^filters=(.*)$/`. -/
def filtersRuleMatch (rule : String) : Option String :=
  if "filters=".toList.isPrefixOf rule.toList then some (String.mk (rule.toList.drop 8))
  else none

/-- Model of `cropRuleRegExp = /^crop=rect64\(([0-9a-f]+)\)$/`. -/
def cropRuleMatch (rule : String) : Option String :=
  match stripAround "crop=rect64(".toList ")".toList rule.toList with
  | none => none
  | some mid => if !mid.isEmpty && mid.all isLowerHex then some (String.mk mid) else none

/-- Model of `cropFilterRegExp = /^crop64=1,([0-9a-f]+)$/`. -/
def cropFilterMatch (f : String) : Option String :=
  if "crop64=1,".toList.isPrefixOf f.toList then
    let mid := f.toList.drop 9
    if !mid.isEmpty && mid.all isLowerHex then some (String.mk mid) else none
  else none

/-- Character class `[-0-9.]` of the tilt filter regex. -/
def isTiltChar (c : Char) : Bool := c = '-' || isDecDigit c || c = '.'

/-- Model of `tiltFilterRegExp = /^tilt=1,([-0-9.]+),0.0*$/` — note the
third `.` is the regex wildcard: after the captured group (which runs to
the first comma after the prefix, since the class excludes commas) the
line must continue `,0`, one arbitrary character, and zero or more `0`s. -/
def tiltFilterMatch (f : String) : Option String :=
  if "tilt=1,".toList.isPrefixOf f.toList then
    let r := f.toList.drop 7
    let g := r.takeWhile (fun c => c ≠ ',')
    match r.dropWhile (fun c => c ≠ ',') with
    | ',' :: '0' :: _ :: zeros =>
      if !g.isEmpty && g.all isTiltChar && zeros.all (fun z => z = '0') then
        some (String.mk g)
      else none
    | _ => none
  else none

/-- Model of the test of
`ignoredRulesRegExp = /^([ \t]*$|backuphash=|width=|height=|moddate=|textactive=0)/`. -/
def isIgnoredRule (rule : String) : Bool :=
  rule.toList.all (fun c => c = ' ' || c = '\t')
  || "backuphash=".toList.isPrefixOf rule.toList
  || "width=".toList.isPrefixOf rule.toList
  || "height=".toList.isPrefixOf rule.toList
  || "moddate=".toList.isPrefixOf rule.toList
  || "textactive=0".toList.isPrefixOf rule.toList

/-- Model of `sectionStartRegExp = /^\[(.*)\]$/`. -/
def sectionHeaderMatch (line : String) : Option String :=
  match line.toList with
  | '[' :: rest =>
    if rest.getLast? = some ']' then some (String.mk rest.dropLast) else none
  | _ => none

/-! ### The `PhotoWork` record and the rule-to-edit translation -/

/-- A JavaScript number, exactly rational or `NaN` (`none`). -/
abbrev JsNum : Type := Option ℚ

/-- NaN-propagating addition. -/
def jsAdd (a b : JsNum) : JsNum :=
  match a, b with
  | some x, some y => some (x + y)
  | _, _ => none

/-- NaN-propagating multiplication. -/
def jsMul (a b : JsNum) : JsNum :=
  match a, b with
  | some x, some y => some (x * y)
  | _, _ => none

/-- The values a `PhotoWork` field can hold. -/
inductive JsVal : Type
  | bool (b : Bool)
  | num (n : JsNum)
  | rect (r : Rect)
  deriving DecidableEq, Repr

/-- The `PhotoWork` edit record, embedded as a JavaScript object over
`JsVal` fields. -/
abbrev PhotoWork : Type := JsObj JsVal

/-- JavaScript truthiness of a field read: absent, `false`, `0` and `NaN`
are falsy; objects are always truthy. -/
def jsTruthy : Option JsVal → Bool
  | none => false
  | some (.bool b) => b
  | some (.num none) => false
  | some (.num (some q)) => decide (q ≠ 0)
  | some (.rect _) => true

/-- Modelled from the spec: the rotation-application helper `rotate` of
`common/util/EffectsUtil` is not under `src/`; §6 specifies it as a
collaborator that "mutates an edit record given a quarter-turn count and a
flip flag".  We fold the turns into the record's `rotationTurns` field
modulo 4. -/
def rotate (photoWork : PhotoWork) (turns : ℕ) (flip : Bool) : PhotoWork :=
  let old : ℕ := match jsLookup photoWork "rotationTurns" with
    | some (.num (some q)) => q.num.toNat
    | _ => 0
  let _ := flip
  jsSet photoWork "rotationTurns" (.num (some (((old + turns) % 4 : ℕ) : ℚ)))

/-- The legacy-to-internal tilt scale factor `-11.3848` (line 292). -/
def tiltScale : ℚ := -113848 / 10000

/-- Import anomalies, modelled structurally (the source collects them as
message strings for a single `console.warn`, lines 364-370). -/
inductive Problem : Type
  | duplicateCrop (first later : String)
  | unknownFilter (f : String)
  | unknownRule (rule : String)
  | invalidCrop (value : String)
  deriving DecidableEq, Repr

/-- Test for the duplicate-crop anomaly. -/
def Problem.isDuplicateCrop : Problem → Bool
  | .duplicateCrop _ _ => true
  | _ => false

/-- The state threaded through the rule loop of
`createPhotoWorkFromPicasaRules` (lines 276-314). -/
structure ScanState where
  photoWork : PhotoWork
  picasaCropRect : Option String
  importProblems : List Problem
  deriving DecidableEq, Repr

/-- One filter of a `filters=` rule (lines 289-303). -/
def scanFilter (s : ScanState) (f : String) : ScanState :=
  match tiltFilterMatch f with
  | some g =>
    let picasaTilt := parseJsFloat g
    let old : JsNum :=
      if jsTruthy (jsLookup s.photoWork "tilt") then
        match jsLookup s.photoWork "tilt" with
        | some (.num n) => n
        | _ => none
      else some 0
    ⟨jsSet s.photoWork "tilt" (.num (jsAdd old (jsMul picasaTilt (some tiltScale)))),
     s.picasaCropRect, s.importProblems⟩
  | none =>
    match cropFilterMatch f with
    | some hex =>
      match s.picasaCropRect with
      | none => ⟨s.photoWork, some hex, s.importProblems⟩
      | some first =>
        if first = hex then s
        else ⟨s.photoWork, s.picasaCropRect,
              s.importProblems ++ [.duplicateCrop first hex]⟩
    | none =>
      if f.length ≠ 0 then
        ⟨s.photoWork, s.picasaCropRect, s.importProblems ++ [.unknownFilter f]⟩
      else s

/-- One rule of the loop (lines 282-314). -/
def scanRule (s : ScanState) (rule : String) : ScanState :=
  match rotateRuleMatch rule with
  | some n => ⟨rotate s.photoWork n false, s.picasaCropRect, s.importProblems⟩
  | none =>
    if rule = "star=yes" then
      ⟨jsSet s.photoWork "flagged" (.bool true), s.picasaCropRect, s.importProblems⟩
    else
      match filtersRuleMatch rule with
      | some rest => (rest.splitOn ";").foldl scanFilter s
      | none =>
        match cropRuleMatch rule with
        | some hex =>
          match s.picasaCropRect with
          | none => ⟨s.photoWork, some hex, s.importProblems⟩
          | some first =>
            if first = hex then s
            else ⟨s.photoWork, s.picasaCropRect,
                  s.importProblems ++ [.duplicateCrop first hex]⟩
        | none =>
          if isIgnoredRule rule then s
          else ⟨s.photoWork, s.picasaCropRect, s.importProblems ++ [.unknownRule rule]⟩

/-- The full rule loop of `createPhotoWorkFromPicasaRules`. -/
def scanPicasaRules (rules : List String) : ScanState :=
  rules.foldl scanRule ⟨[], none, []⟩

/-- The packed crop value presented by one filter, if any: the `crop64`
branch is only reached when the tilt pattern does not match. -/
def cropsOfFilter (f : String) : List String :=
  match tiltFilterMatch f with
  | some _ => []
  | none =>
    match cropFilterMatch f with
    | some hex => [hex]
    | none => []

/-- The packed crop values presented by one rule, in scan order. -/
def cropsOfRule (rule : String) : List String :=
  match rotateRuleMatch rule with
  | some _ => []
  | none =>
    if rule = "star=yes" then []
    else
      match filtersRuleMatch rule with
      | some rest => ((rest.splitOn ";").map cropsOfFilter).flatten
      | none =>
        match cropRuleMatch rule with
        | some hex => [hex]
        | none => []

/-- The packed crop values presented by a rule list, in scan order. -/
def cropsOfRules (rules : List String) : List String :=
  (rules.map cropsOfRule).flatten

/-- The number of duplicate-crop anomalies in a problem list. -/
def dupCount (probs : List Problem) : ℕ :=
  (probs.filter Problem.isDuplicateCrop).length

/-- The first-seen crop value after folding a list of further values into
an existing one. -/
def endCrop : Option String → List String → Option String
  | some v, _ => some v
  | none, vs => vs.head?

/-- How many duplicate-crop anomalies folding the given values into the
current first-seen crop adds: one per value differing from the first
seen. -/
def newDupCount : Option String → List String → ℕ
  | some v, vs => (vs.filter (fun w => decide (w ≠ v))).length
  | none, [] => 0
  | none, v :: vs => (vs.filter (fun w => decide (w ≠ v))).length

/-! ### Coordinate reconciliation (lines 316-362) -/

/-- A 2D affine transform: the effect of `vec2.transformMat4` with a
`mat4` built for 2D work — `(x, y)` maps to `(a*x + b*y + tx, c*x + d*y + ty)`. -/
structure AffineMap where
  a : ℚ
  b : ℚ
  c : ℚ
  d : ℚ
  tx : ℚ
  ty : ℚ
  deriving DecidableEq, Repr

/-- Apply an affine transform to a vector. -/
def AffineMap.apply (m : AffineMap) (v : Vec) : Vec :=
  (m.a * v.1 + m.b * v.2 + m.tx, m.c * v.1 + m.d * v.2 + m.ty)

/-- The `Corner` compass names. -/
inductive Corner : Type
  | nw
  | ne
  | sw
  | se
  deriving DecidableEq, Repr

/-- Embedding of `getCornerPointOfRect` (part_000 lines 81-85), which the
store imports as `cornerPointOfRect`. -/
def getCornerPointOfRect (rect : Rect) (corner : Corner) : Vec :=
  ((match corner with
    | .nw | .sw => rect.x
    | _ => rect.x + rect.width),
   (match corner with
    | .nw | .ne => rect.y
    | _ => rect.y + rect.height))

/-- Modelled from the spec: `centerOfRect` of `common/util/GeometryUtil` is
not under `src/`; §4.2 step 4 calls it "the legacy crop rectangle's
center". -/
def centerOfRect (rect : Rect) : Vec :=
  (rect.x + rect.width / 2, rect.y + rect.height / 2)

/-- Modelled from the spec: `scaleRectToFitBorders` of
`common/util/GeometryUtil` is not under `src/`.  §4.1: "given a target
center, a target aspect rectangle, and a bounding polygon, grows the
rectangle uniformly from the center along each of the four
corner-to-center rays, using `cutLineWithPolygon` per corner, then takes
the minimum growth factor across the four rays". -/
def scaleRectToFitBorders (center : Vec) (size : ℚ × ℚ) (borderPolygon : List Vec) :
    Rect :=
  let baseRect : Rect := ⟨center.1 - size.1 / 2, center.2 - size.2 / 2, size.1, size.2⟩
  let factors := [Corner.nw, Corner.ne, Corner.sw, Corner.se].filterMap
    (fun c => cutLineBestFactor center (getCornerPointOfRect baseRect c) borderPolygon)
  let growth := (ratMinList factors).getD 1
  ⟨center.1 - growth * size.1 / 2, center.2 - growth * size.2 / 2,
   growth * size.1, growth * size.2⟩

/-- The packed-crop decode inside `createPhotoWorkFromPicasaRules` (lines
326-336): zero-pad the hex value on the left to 16 digits, split it into
four 4-digit groups (left, top, right, bottom), divide each by `0xffff`
and scale by the master width (left/right) or height (top/bottom), then
build the rectangle with `rectFromPoints`. -/
def decodePicasaCropRect (hex : String) (masterWidth masterHeight : ℚ) : Rect :=
  let padded := List.replicate (16 - hex.length) '0' ++ hex.toList
  getRectFromPoints
    ((hexValue (padded.take 4) : ℚ) / 65535 * masterWidth,
     (hexValue ((padded.drop 4).take 4) : ℚ) / 65535 * masterHeight)
    ((hexValue ((padded.drop 8).take 4) : ℚ) / 65535 * masterWidth,
     (hexValue ((padded.drop 12).take 4) : ℚ) / 65535 * masterHeight)

/-- Truthiness of the `picasaCropRect` string variable (line 316): present
and non-empty. -/
def cropRectTruthy : Option String → Bool
  | none => false
  | some v => decide (v ≠ "")

/-- Embedding of `createPhotoWorkFromPicasaRules` (lines 270-373).  The
collaborator `createProjectionMatrix` of `common/util/CameraMetrics` is
not under `src/` and is specified externally (§6), so it is taken as a
parameter; the `directoryPath`/`photoBasename` arguments of the source
only label the diagnostic message and are dropped; the second component
returns the collected anomalies, which the source reports through one
`console.warn`. -/
def createPhotoWorkFromPicasaRules
    (createProjectionMatrix : ℚ × ℚ → PhotoWork → AffineMap)
    (picasaRules : List String) (masterWidth masterHeight : ℚ) :
    PhotoWork × List Problem :=
  let s := scanPicasaRules picasaRules
  if cropRectTruthy s.picasaCropRect || jsTruthy (jsLookup s.photoWork "tilt") then
    let decoded : Option Rect × List Problem :=
      match s.picasaCropRect with
      | some v =>
        if 16 < v.length then (none, s.importProblems ++ [.invalidCrop v])
        else (some (decodePicasaCropRect v masterWidth masterHeight), s.importProblems)
      | none => (none, s.importProblems)
    let picasaCanvasRect := decoded.1.getD ⟨0, 0, masterWidth, masterHeight⟩
    let projectionMatrix := createProjectionMatrix (masterWidth, masterHeight) s.photoWork
    let borderPolygon : List Vec :=
      [projectionMatrix.apply (getCornerPointOfRect picasaCanvasRect .nw),
       projectionMatrix.apply (getCornerPointOfRect picasaCanvasRect .ne),
       projectionMatrix.apply (getCornerPointOfRect picasaCanvasRect .se),
       projectionMatrix.apply (getCornerPointOfRect picasaCanvasRect .sw)]
    let projectedCropRectCenter := projectionMatrix.apply (centerOfRect picasaCanvasRect)
    let oddTurns :=
      decide (jsLookup s.photoWork "rotationTurns" = some (.num (some 1)))
      || decide (jsLookup s.photoWork "rotationTurns" = some (.num (some 3)))
    let projectedCropRectSize :=
      if oddTurns then (picasaCanvasRect.height, picasaCanvasRect.width)
      else (picasaCanvasRect.width, picasaCanvasRect.height)
    (jsSet s.photoWork "cropRect"
       (.rect (scaleRectToFitBorders projectedCropRectCenter projectedCropRectSize
          borderPolygon)),
     decoded.2)
  else (s.photoWork, s.importProblems)

/-! ### The legacy sidecar section parser (lines 192-258) -/

/-- The state of the line loop in `fetchPicasaIni` (lines 220-221). -/
structure IniState where
  currentSectionKey : Option String
  currentSectionRules : List String
  photos : JsObj (List String)
  deriving DecidableEq, Repr

/-- Embedding of `flushCurrentSection` (lines 223-234).  The body runs only
when `currentSectionKey` is truthy — present *and* not the empty string —
and only then records the section and resets the accumulator; for an
originals directory the parent rules for the same key are appended
first. -/
def flushCurrentSection (editedPhotos : Option (JsObj (List String))) (s : IniState) :
    IniState :=
  match s.currentSectionKey with
  | some k =>
    if k ≠ "" then
      let editedRules := match editedPhotos with
        | some m => (jsLookup m k).getD []
        | none => []
      ⟨none, [], jsSet s.photos k (s.currentSectionRules ++ editedRules)⟩
    else s
  | none => s

/-- One line of the reader (lines 236-248): a section header flushes and
opens a new section, any other line is appended to the accumulator. -/
def picasaLineStep (editedPhotos : Option (JsObj (List String))) (s : IniState)
    (line : String) : IniState :=
  match sectionHeaderMatch line with
  | some key =>
    let s₁ := flushCurrentSection editedPhotos s
    ⟨some key, s₁.currentSectionRules, s₁.photos⟩
  | none => ⟨s.currentSectionKey, s.currentSectionRules ++ [line], s.photos⟩

/-- The pure core of `fetchPicasaIni` (lines 212-258): fold the lines of
the sidecar, then flush the last open section on close. -/
def parsePicasaLines (editedPhotos : Option (JsObj (List String)))
    (lines : List String) : JsObj (List String) :=
  (flushCurrentSection editedPhotos
    (lines.foldl (picasaLineStep editedPhotos) ⟨none, [], []⟩)).photos

/-! ### The directory work store (lines 27-44, 99-174) -/

/-- The `DirectoryWorkData` record persisted in `ansel.json`. -/
structure DirectoryWorkData where
  photos : JsObj PhotoWork
  deriving DecidableEq, Repr

/-- The combined `DirectoryData` snapshot of one directory. -/
structure DirectoryData where
  anselData : DirectoryWorkData
  picasaData : Option (JsObj (List String))
  deriving DecidableEq, Repr

/-- Embedding of `DirectoryWork.storePhotoWork` (lines 114-137) acting on a
fetched snapshot: an empty record deletes the entry; a non-empty record is
canonicalized and assigned, and the `isNew` test — evaluated by the source
*after* the assignment — decides whether the whole mapping is re-sorted. -/
def storePhotoWork (data : DirectoryData) (photoBasename : String)
    (photoWork : PhotoWork) : DirectoryData :=
  let anselPhotos := data.anselData.photos
  if (jsKeys photoWork).length = 0 then
    ⟨⟨jsDelete anselPhotos photoBasename⟩, data.picasaData⟩
  else
    let photoWork₁ := toCanonical photoWork
    let photos₁ := jsSet anselPhotos photoBasename photoWork₁
    let isNew := !(jsLookup photos₁ photoBasename).isSome
    if isNew then ⟨⟨toCanonical photos₁⟩, data.picasaData⟩
    else ⟨⟨photos₁⟩, data.picasaData⟩

/-- Embedding of `DirectoryWork.fetchPhotoWork` (lines 99-112) applied to a
fetched snapshot, in state-passing form: the snapshot travels through the
body unchanged.  The projection-matrix collaborator is a parameter exactly
as in `createPhotoWorkFromPicasaRules`. -/
def fetchPhotoWork (createProjectionMatrix : ℚ × ℚ → PhotoWork → AffineMap)
    (data : DirectoryData) (photoBasename : String) (masterWidth masterHeight : ℚ) :
    PhotoWork × DirectoryData :=
  match jsLookup data.anselData.photos photoBasename with
  | some photoWork => (photoWork, data)
  | none =>
    match data.picasaData with
    | some picasaPhotos =>
      match jsLookup picasaPhotos photoBasename with
      | some picasaRules =>
        ((createPhotoWorkFromPicasaRules createProjectionMatrix picasaRules
            masterWidth masterHeight).1, data)
      | none => ([], data)
    | none => ([], data)

/-- The disk effect of one store cycle. -/
inductive DiskAction : Type
  | noAction
  | unlink
  | write (data : DirectoryWorkData)
  deriving DecidableEq, Repr

/-- The body of the store cycle inside `onDataChanged` (lines 148-163)
after the debounce delay, as a function of the cached data and of whether
the sidecar file exists: delete the file when the own mapping is empty (or
no data is cached), otherwise write the serialized data. -/
def storeCycleAction (data : Option DirectoryData) (fileExists : Bool) : DiskAction :=
  let isEmpty := match data with
    | none => true
    | some d => (jsKeys d.anselData.photos).length = 0
  if isEmpty then
    if fileExists then .unlink else .noAction
  else
    match data with
    | some d => .write d.anselData
    | none => .noAction

/-- The key order in which the sidecar serialization emits the photos
mapping: `json-stringify-pretty-compact` writes object keys in insertion
order. -/
def serializedPhotoOrder (d : DirectoryWorkData) : List String := jsKeys d.photos

/-! ### The store facade registry (lines 51-66, 386-408) -/

/-- The flags of a `DirectoryWork` instance observed by `isIdle` (lines
53-57). -/
structure DirectoryWork where
  runningFetch : Bool
  isStoreRunning : Bool
  needsStoreFollowup : Bool
  deriving DecidableEq, Repr

/-- Embedding of `DirectoryWork.isIdle` (lines 64-66). -/
def DirectoryWork.isIdle (w : DirectoryWork) : Bool :=
  !w.runningFetch && !w.isStoreRunning && !w.needsStoreFollowup

/-- A freshly constructed `DirectoryWork` (line 403): no running fetch, no
running store, no pending followup. -/
def newDirectoryWork : DirectoryWork := ⟨false, false, false⟩

/-- The registry state: `directoryWorkByPath` plus the separately
maintained counter `directoryWorkCacheSize` (lines 386-387). -/
structure Registry where
  byPath : JsObj DirectoryWork
  cacheSize : ℤ
  deriving DecidableEq, Repr

/-- The constant `maxDirectoryWorkCacheSize` (line 388). -/
def maxDirectoryWorkCacheSize : ℤ := 100

/-- One iteration of the eviction loop (lines 395-399): look the path up
and, if the instance is idle, delete it and decrement the counter. -/
def sweepStep (r : Registry) (path : String) : Registry :=
  match jsLookup r.byPath path with
  | some w => if w.isIdle then ⟨jsDelete r.byPath path, r.cacheSize - 1⟩ else r
  | none => r

/-- The eviction sweep of `getDirectoryWork` (lines 394-400): walk the key
snapshot and delete every idle instance, decrementing the counter per
deletion. -/
def evictionSweep (reg : Registry) : Registry :=
  (jsKeys reg.byPath).foldl sweepStep reg

/-- Embedding of `getDirectoryWork` (lines 390-408) as a state transform on
the registry. -/
def getDirectoryWork (reg : Registry) (directoryPath : String) : Registry :=
  match jsLookup reg.byPath directoryPath with
  | some _ => reg
  | none =>
    let reg₁ :=
      if maxDirectoryWorkCacheSize ≤ reg.cacheSize then evictionSweep reg else reg
    ⟨jsSet reg₁.byPath directoryPath newDirectoryWork, reg₁.cacheSize + 1⟩

/-- The initial, empty registry. -/
def emptyRegistry : Registry := ⟨[], 0⟩

/-- A registry holding 100 idle instances under 100 distinct one-character
paths, with its counter in sync — the state reached after 100 distinct
idle accesses — used to exercise the eviction path concretely. -/
def fullRegistry : Registry :=
  ⟨(List.range 100).map (fun i => (String.mk [Char.ofNat (100 + i)], newDirectoryWork)),
   100⟩

end Ansel

namespace Ansel

/-! ### Theorems about the geometry library -/

/-- C8: `getRectFromPoints` is order-independent, always yields
non-negative width and height, and maps the corner pair `(5,5)`,`(1,1)` to
the rectangle `{x:1, y:1, width:4, height:4}`. -/
theorem getRectFromPoints_spec (p₁ p₂ : Vec) :
    getRectFromPoints p₁ p₂ = getRectFromPoints p₂ p₁
    ∧ 0 ≤ (getRectFromPoints p₁ p₂).width
    ∧ 0 ≤ (getRectFromPoints p₁ p₂).height
    ∧ getRectFromPoints (5, 5) (1, 1) = ⟨1, 1, 4, 4⟩ := by
  refine ⟨?_, ?_, ?_, by decide⟩
  · simp [getRectFromPoints, min_comm, abs_sub_comm]
  · exact abs_nonneg _
  · exact abs_nonneg _

/-- C9: `intersectPlainLines` returns the not-a-number sentinel pair
(embedded as `none`) exactly when the determinant of the two direction
vectors is zero, with no epsilon tolerance; otherwise the returned factors
are exact intersection parameters on the respective lines. -/
theorem intersectPlainLines_spec (sx₁ sy₁ ex₁ ey₁ sx₂ sy₂ ex₂ ey₂ : ℚ) :
    (intersectPlainLines sx₁ sy₁ ex₁ ey₁ sx₂ sy₂ ex₂ ey₂ = none ↔
      (ex₂ - sx₂) * (ey₁ - sy₁) - (ex₁ - sx₁) * (ey₂ - sy₂) = 0)
    ∧ ∀ t u, intersectPlainLines sx₁ sy₁ ex₁ ey₁ sx₂ sy₂ ex₂ ey₂ = some (t, u) →
        sx₁ + t * (ex₁ - sx₁) = sx₂ + u * (ex₂ - sx₂)
        ∧ sy₁ + t * (ey₁ - sy₁) = sy₂ + u * (ey₂ - sy₂) := by
  unfold intersectPlainLines
  by_cases h : (ex₂ - sx₂) * (ey₁ - sy₁) - (ex₁ - sx₁) * (ey₂ - sy₂) = 0
  · simp only [h, if_pos rfl]
    exact ⟨by simp [h], by simp⟩
  · simp only [if_neg h]
    refine ⟨by simp [h], ?_⟩
    intro t u heq
    have ht : t = ((ex₂ - sx₂) * (sy₂ - sy₁) - (sx₂ - sx₁) * (ey₂ - sy₂)) /
        ((ex₂ - sx₂) * (ey₁ - sy₁) - (ex₁ - sx₁) * (ey₂ - sy₂)) := by
      have := (Option.some.injEq _ _).mp heq
      exact (Prod.mk.injEq _ _ _ _).mp this |>.1.symm
    have hu : u = ((ex₁ - sx₁) * (sy₂ - sy₁) - (sx₂ - sx₁) * (ey₁ - sy₁)) /
        ((ex₂ - sx₂) * (ey₁ - sy₁) - (ex₁ - sx₁) * (ey₂ - sy₂)) := by
      have := (Option.some.injEq _ _).mp heq
      exact (Prod.mk.injEq _ _ _ _).mp this |>.2.symm
    subst ht hu
    constructor
    · field_simp
      ring
    · field_simp
      ring

/-- C9 witness: a concrete non-degenerate intersection, with the line
equations instantiated at the returned factors. -/
theorem intersectPlainLines_spec_witness :
    (0 : ℚ) + 1/2 * (2 - 0) = 0 + 1/2 * (2 - 0)
    ∧ (0 : ℚ) + 1/2 * (2 - 0) = 2 + 1/2 * (0 - 2) :=
  (intersectPlainLines_spec 0 0 2 2 0 2 2 0).2 (1/2) (1/2) (by decide)

/-! ### The `cutLineWithPolygon` tie-break (C1) -/

theorem ratMinList_append_single (l : List ℚ) (c : ℚ) :
    ratMinList (l ++ [c]) =
      some (match ratMinList l with | none => c | some b => min b c) := by
  unfold ratMinList
  rw [List.foldl_append]
  cases List.foldl (fun acc c => match acc with | none => some c | some b => some (min b c))
      none l <;> rfl

theorem ratMaxList_append_single (l : List ℚ) (c : ℚ) :
    ratMaxList (l ++ [c]) =
      some (match ratMaxList l with | none => c | some b => max b c) := by
  unfold ratMaxList
  rw [List.foldl_append]
  cases List.foldl (fun acc c => match acc with | none => some c | some b => some (max b c))
      none l <;> rfl

theorem ratMinList_mem (l : List ℚ) (b : ℚ) (h : ratMinList l = some b) : b ∈ l := by
  induction l using List.reverseRecOn generalizing b with
  | nil => simp [ratMinList] at h
  | append_singleton l c ih =>
    rw [ratMinList_append_single] at h
    cases hm : ratMinList l with
    | none =>
      rw [hm] at h
      simp only [Option.some.injEq] at h
      rw [← h]
      simp
    | some b' =>
      rw [hm] at h
      simp only [Option.some.injEq] at h
      rcases min_choice b' c with hc | hc
      · have hb : b = b' := by rw [← h, hc]
        rw [hb]
        exact List.mem_append_left _ (ih b' hm)
      · have hb : b = c := by rw [← h, hc]
        rw [hb]
        simp

theorem ratMaxList_mem (l : List ℚ) (b : ℚ) (h : ratMaxList l = some b) : b ∈ l := by
  induction l using List.reverseRecOn generalizing b with
  | nil => simp [ratMaxList] at h
  | append_singleton l c ih =>
    rw [ratMaxList_append_single] at h
    cases hm : ratMaxList l with
    | none =>
      rw [hm] at h
      simp only [Option.some.injEq] at h
      rw [← h]
      simp
    | some b' =>
      rw [hm] at h
      simp only [Option.some.injEq] at h
      rcases max_choice b' c with hc | hc
      · have hb : b = b' := by rw [← h, hc]
        rw [hb]
        exact List.mem_append_left _ (ih b' hm)
      · have hb : b = c := by rw [← h, hc]
        rw [hb]
        simp

theorem cutStep_eq_updateBest (ls le : Vec) (best : Option ℚ) (e : Vec × Vec) :
    cutStep ls le best e =
      match candOfEdge ls le e with
      | none => best
      | some c => updateBest best c := by
  unfold cutStep candOfEdge
  cases hi : intersectPlainLines e.1.1 e.1.2 e.2.1 e.2.2 ls.1 ls.2 le.1 le.2 with
  | none => rfl
  | some p =>
    obtain ⟨t₀, t₁⟩ := p
    by_cases hb : 0 ≤ t₀ ∧ t₀ ≤ 1
    · simp only [if_pos hb]
      cases best <;> rfl
    · simp only [if_neg hb]

theorem foldl_cutStep_eq (ls le : Vec) (edges : List (Vec × Vec)) (b₀ : Option ℚ) :
    edges.foldl (cutStep ls le) b₀ =
      (edges.filterMap (candOfEdge ls le)).foldl updateBest b₀ := by
  induction edges generalizing b₀ with
  | nil => rfl
  | cons e es ih =>
    rw [List.foldl_cons, cutStep_eq_updateBest]
    cases hc : candOfEdge ls le e with
    | none => simp only [List.filterMap_cons, hc, ih]
    | some c => simp only [List.filterMap_cons, hc, List.foldl_cons, ih]

theorem updateBest_fold_spec (cs : List ℚ) :
    (cs.foldl updateBest none = none ↔ cs = [])
    ∧ (cs.filter (fun t => decide (epsilon ≤ t)) ≠ [] →
        cs.foldl updateBest none = ratMinList (cs.filter (fun t => decide (epsilon ≤ t))))
    ∧ (cs.filter (fun t => decide (epsilon ≤ t)) = [] →
        cs.foldl updateBest none = ratMaxList cs) := by
  induction cs using List.reverseRecOn with
  | nil => exact ⟨by simp, by simp, by simp [ratMaxList]⟩
  | append_singleton l c ih =>
    obtain ⟨ih₁, ih₂, ih₃⟩ := ih
    rw [List.foldl_append, List.foldl_cons, List.foldl_nil]
    have hfa : (l ++ [c]).filter (fun t => decide (epsilon ≤ t)) =
        l.filter (fun t => decide (epsilon ≤ t)) ++ [c].filter (fun t => decide (epsilon ≤ t)) :=
      List.filter_append _ _
    cases hf : List.foldl updateBest none l with
    | none =>
      have hl : l = [] := ih₁.mp hf
      subst hl
      by_cases hc : epsilon ≤ c
      · refine ⟨by simp [updateBest], fun _ => ?_, by simp [hc]⟩
        simp [updateBest, hc, ratMinList]
      · refine ⟨by simp [updateBest], fun hne => ?_, fun _ => by simp [updateBest, ratMaxList]⟩
        simp [hc] at hne
    | some bv =>
      have hlne : ¬ (l = []) := by
        intro h0
        rw [h0] at hf
        simp at hf
      by_cases hge : l.filter (fun t => decide (epsilon ≤ t)) = []
      · have hmax : ratMaxList l = some bv := (ih₃ hge).symm.trans hf
        have hbv_mem : bv ∈ l := ratMaxList_mem l bv hmax
        have hbv_lt : ¬ epsilon ≤ bv := by
          have := List.filter_eq_nil_iff.mp hge bv hbv_mem
          simpa using this
        have hand : ¬ (epsilon ≤ c ∧ epsilon ≤ bv) := fun h => hbv_lt h.2
        have hres : updateBest (some bv) c = some (max bv c) := by
          unfold updateBest
          rcases lt_or_ge bv c with hlt | hle
          · simp [hand, hlt, max_eq_right (le_of_lt hlt)]
          · simp [hand, not_lt.mpr hle, max_eq_left hle]
        by_cases hc : epsilon ≤ c
        · have hmaxc : max bv c = c :=
            max_eq_right (le_of_lt (lt_of_lt_of_le (lt_of_not_le hbv_lt) hc))
          refine ⟨by simp [hres], fun _ => ?_, fun habs => ?_⟩
          · rw [hres, hfa, hge, hmaxc]
            simp [hc, ratMinList]
          · rw [hfa, hge] at habs
            simp [hc] at habs
        · refine ⟨by simp [hres], fun habs => ?_, fun _ => ?_⟩
          · rw [hfa, hge] at habs
            simp [hc] at habs
          · rw [hres, ratMaxList_append_single, hmax]
      · have hmin : ratMinList (l.filter (fun t => decide (epsilon ≤ t))) = some bv :=
          (ih₂ hge).symm.trans hf
        have hbv_mem : bv ∈ l.filter (fun t => decide (epsilon ≤ t)) :=
          ratMinList_mem _ bv hmin
        have hbv_ge : epsilon ≤ bv := by
          have := (List.mem_filter.mp hbv_mem).2
          simpa using this
        by_cases hc : epsilon ≤ c
        · have hres : updateBest (some bv) c = some (min bv c) := by
            rcases lt_or_ge c bv with hlt | hle
            · simp [updateBest, hc, hbv_ge, hlt, min_eq_right (le_of_lt hlt)]
            · simp [updateBest, hc, hbv_ge, not_lt.mpr hle, min_eq_left hle]
          refine ⟨by simp [hres], fun _ => ?_, fun habs => ?_⟩
          · rw [hres, hfa]
            have hfc : [c].filter (fun t => decide (epsilon ≤ t)) = [c] := by simp [hc]
            rw [hfc, ratMinList_append_single, hmin]
          · rw [hfa] at habs
            rcases List.append_eq_nil.mp habs with ⟨h1, h2⟩
            simp [hc] at h2
        · have hnlt : ¬ bv < c := not_lt.mpr (le_of_lt (lt_of_lt_of_le (lt_of_not_le hc) hbv_ge))
          have hres : updateBest (some bv) c = some bv := by
            unfold updateBest
            have : ¬ (epsilon ≤ c ∧ epsilon ≤ bv) := fun hand => hc hand.1
            simp [this, hnlt]
          refine ⟨by simp [hres], fun _ => ?_, fun habs => ?_⟩
          · rw [hres, hfa]
            have : [c].filter (fun t => decide (epsilon ≤ t)) = [] := by simp [hc]
            rw [this, List.append_nil, hmin]
          · rw [hfa] at habs
            rcases List.append_eq_nil.mp habs with ⟨h1, _⟩
            exact absurd h1 hge

/-- C1 (amended): `cutLineWithPolygon` considers exactly the in-bounds edge
crossings (edge factor in `[0,1]`); when at least one crossing has line
factor `≥ epsilon` it returns the crossing with the smallest such factor,
and otherwise it returns the crossing with the *largest* (least-negative)
line factor overall; it returns `none` when no edge is crossed within
bounds, and the returned point is the line evaluated at the chosen
factor. -/
theorem cutLineWithPolygon_spec (ls le : Vec) (poly : List Vec) :
    (cutLineBestFactor ls le poly = none ↔ inBoundsCrossingFactors ls le poly = [])
    ∧ (geFactors ls le poly ≠ [] →
        cutLineBestFactor ls le poly = ratMinList (geFactors ls le poly))
    ∧ (geFactors ls le poly = [] →
        cutLineBestFactor ls le poly = ratMaxList (inBoundsCrossingFactors ls le poly))
    ∧ cutLineWithPolygon ls le poly = (cutLineBestFactor ls le poly).map
        (fun b => (ls.1 + b * (le.1 - ls.1), ls.2 + b * (le.2 - ls.2))) := by
  have he : cutLineBestFactor ls le poly =
      (inBoundsCrossingFactors ls le poly).foldl updateBest none := by
    unfold cutLineBestFactor inBoundsCrossingFactors
    exact foldl_cutStep_eq ls le (polygonEdges poly) none
  have h := updateBest_fold_spec (inBoundsCrossingFactors ls le poly)
  refine ⟨?_, ?_, ?_, rfl⟩
  · rw [he]
    exact h.1
  · simp only [geFactors]
    rw [he]
    exact h.2.1
  · simp only [geFactors]
    rw [he]
    exact h.2.2

/-- C1 witness: the unit-square example — the line from `(1/2,1/2)` to
`(2,1/2)` has a crossing past epsilon, and the code picks the smallest such
factor. -/
theorem cutLineWithPolygon_spec_witness :
    cutLineBestFactor (1/2, 1/2) (2, 1/2) [(0, 0), (1, 0), (1, 1), (0, 1)] =
      ratMinList (geFactors (1/2, 1/2) (2, 1/2) [(0, 0), (1, 0), (1, 1), (0, 1)]) :=
  (cutLineWithPolygon_spec (1/2, 1/2) (2, 1/2) [(0, 0), (1, 0), (1, 1), (0, 1)]).2.1
    (by decide)

/-! ### JavaScript object lemmas -/

theorem jsLookup_cons {α : Type} (k₁ : String) (v₁ : α) (rest : JsObj α) (k : String) :
    jsLookup ((k₁, v₁) :: rest) k = if k₁ == k then some v₁ else jsLookup rest k := by
  unfold jsLookup
  cases h : k₁ == k <;> simp [List.find?, h]

theorem jsLookup_jsSet_self {α : Type} (m : JsObj α) (k : String) (v : α) :
    jsLookup (jsSet m k v) k = some v := by
  induction m with
  | nil => simp [jsSet, jsLookup, List.find?]
  | cons p rest ih =>
    obtain ⟨k₁, v₁⟩ := p
    by_cases h : k₁ == k
    · simp [jsSet, h, jsLookup, List.find?]
    · simp only [jsSet, h, Bool.false_eq_true, if_neg, ite_false]
      rw [jsLookup_cons, if_neg (by simp_all), ih]

theorem jsLookup_eq_none_iff {α : Type} (m : JsObj α) (k : String) :
    jsLookup m k = none ↔ k ∉ jsKeys m := by
  induction m with
  | nil => simp [jsLookup, jsKeys]
  | cons p rest ih =>
    obtain ⟨k₁, v₁⟩ := p
    rw [jsLookup_cons]
    by_cases h : k₁ == k
    · simp only [if_pos h, jsKeys, List.map_cons]
      constructor
      · intro habs
        exact absurd habs (by simp)
      · intro habs
        exact absurd (by simp [eq_of_beq h]) habs
    · simp only [if_neg h, jsKeys, List.map_cons, List.mem_cons]
      rw [ih]
      constructor
      · intro hn hor
        rcases hor with he | hm
        · exact absurd (by simp [he]) h
        · exact hn hm
      · intro hn hm
        exact hn (Or.inr hm)

theorem jsLookup_mem_keys {α : Type} (m : JsObj α) (k : String) (v : α)
    (h : jsLookup m k = some v) : k ∈ jsKeys m := by
  by_contra habs
  rw [← jsLookup_eq_none_iff] at habs
  rw [habs] at h
  exact Option.noConfusion h

theorem jsSet_append_of_absent {α : Type} (m : JsObj α) (k : String) (v : α)
    (h : jsLookup m k = none) : jsSet m k v = m ++ [(k, v)] := by
  induction m with
  | nil => rfl
  | cons p rest ih =>
    obtain ⟨k₁, v₁⟩ := p
    rw [jsLookup_cons] at h
    by_cases hk : k₁ == k
    · rw [if_pos hk] at h
      exact Option.noConfusion h
    · rw [if_neg hk] at h
      simp only [jsSet, hk, Bool.false_eq_true, if_neg, ite_false, List.cons_append,
        List.cons.injEq, true_and]
      exact ih h

theorem jsLookup_jsDelete_self {α : Type} (m : JsObj α) (k : String)
    (hnd : (jsKeys m).Nodup) : jsLookup (jsDelete m k) k = none := by
  induction m with
  | nil => simp [jsDelete, jsLookup]
  | cons p rest ih =>
    obtain ⟨k₁, v₁⟩ := p
    simp only [jsKeys, List.map_cons, List.nodup_cons] at hnd
    by_cases hk : k₁ == k
    · simp only [jsDelete, hk, if_pos]
      rw [jsLookup_eq_none_iff]
      intro habs
      exact hnd.1 (by rw [eq_of_beq hk]; exact habs)
    · simp only [jsDelete, hk, Bool.false_eq_true, if_neg, ite_false]
      rw [jsLookup_cons, if_neg hk]
      exact ih hnd.2

theorem mem_insertSorted (a k : String) (l : List String) :
    a ∈ insertSorted k l ↔ a = k ∨ a ∈ l := by
  induction l with
  | nil => simp [insertSorted]
  | cons k₁ rest ih =>
    unfold insertSorted
    by_cases h : strLe k k₁
    · simp [h, List.mem_cons]
    · simp only [h, Bool.false_eq_true, if_neg, ite_false, List.mem_cons, ih]
      tauto

theorem mem_sortStrings (a : String) (l : List String) :
    a ∈ sortStrings l ↔ a ∈ l := by
  induction l with
  | nil => simp [sortStrings]
  | cons k rest ih =>
    unfold sortStrings at ih ⊢
    rw [List.foldr_cons, mem_insertSorted, ih, List.mem_cons]

theorem jsLookup_filterMap_keys {α : Type} (m : JsObj α) (ks : List String) (k : String)
    (hmem : jsLookup m k = none ∨ k ∈ ks) :
    jsLookup (ks.filterMap (fun k' => (jsLookup m k').map (fun v => (k', v)))) k =
      jsLookup m k := by
  induction ks with
  | nil =>
    rcases hmem with h | h
    · rw [h]
      rfl
    · exact absurd h (List.not_mem_nil k)
  | cons k₁ ks ih =>
    cases h₁ : jsLookup m k₁ with
    | none =>
      simp only [List.filterMap_cons, h₁, Option.map_none']
      apply ih
      rcases hmem with h | h
      · exact Or.inl h
      · rcases List.mem_cons.mp h with he | hm
        · exact Or.inl (he ▸ h₁)
        · exact Or.inr hm
    | some v₁ =>
      simp only [List.filterMap_cons, h₁, Option.map_some']
      rw [jsLookup_cons]
      by_cases hk : k₁ == k
      · rw [if_pos hk, ← eq_of_beq hk, h₁]
      · rw [if_neg hk]
        apply ih
        rcases hmem with h | h
        · exact Or.inl h
        · rcases List.mem_cons.mp h with he | hm
          · exact absurd (by simp [he]) hk
          · exact Or.inr hm

/-- Reading any key of a canonicalized object gives the same value as in
the original: `toCanonical` only reorders. -/
theorem toCanonical_lookup {α : Type} (m : JsObj α) (k : String) :
    jsLookup (toCanonical m) k = jsLookup m k := by
  unfold toCanonical
  apply jsLookup_filterMap_keys
  cases h : jsLookup m k with
  | none => exact Or.inl rfl
  | some v => exact Or.inr ((mem_sortStrings k _).mpr (jsLookup_mem_keys m k v h))

/-- C1 counterexample: for the line from `(2,1/2)` to `(3,1/2)` against the
unit square, both in-bounds crossings have line factor below epsilon
(`-2` and `-1`), and the code returns the *largest* factor `-1` (the point
`(1,1/2)`), not the smallest (`-2`, the point `(0,1/2)`) as the claim
states. -/
theorem cutLineWithPolygon_claim_counterexample :
    inBoundsCrossingFactors (2, 1/2) (3, 1/2) [(0, 0), (1, 0), (1, 1), (0, 1)] = [-2, -1]
    ∧ (∀ t ∈ inBoundsCrossingFactors (2, 1/2) (3, 1/2) [(0, 0), (1, 0), (1, 1), (0, 1)],
        ¬ epsilon ≤ t)
    ∧ cutLineBestFactor (2, 1/2) (3, 1/2) [(0, 0), (1, 0), (1, 1), (0, 1)] = some (-1)
    ∧ cutLineWithPolygon (2, 1/2) (3, 1/2) [(0, 0), (1, 0), (1, 1), (0, 1)] = some (1, 1/2)
    ∧ cutLineWithPolygon (2, 1/2) (3, 1/2) [(0, 0), (1, 0), (1, 1), (0, 1)] ≠ some (0, 1/2)
    ∧ ((-2 : ℚ) < -1) := by decide

/-! ### The legacy crop decode (C4) -/

/-- C4 (amended): the packed value is treated as a 16-hex-digit quad
(left, top, right, bottom), each 4-digit group divided by `0xFFFF` and
scaled by the master width (left/right) or height (top/bottom) — but on
the packed hex `0000000080008000` over a 1000×1000 master this yields
width and height exactly `32768000/65535 ≈ 500.0076`, not exactly 500. -/
theorem decodePicasaCropRect_spec (hex : String) (W H : ℚ) (hlen : hex.length = 16) :
    decodePicasaCropRect hex W H =
      getRectFromPoints
        ((hexValue (hex.toList.take 4) : ℚ) / 65535 * W,
         (hexValue ((hex.toList.drop 4).take 4) : ℚ) / 65535 * H)
        ((hexValue ((hex.toList.drop 8).take 4) : ℚ) / 65535 * W,
         (hexValue ((hex.toList.drop 12).take 4) : ℚ) / 65535 * H)
    ∧ decodePicasaCropRect "0000000080008000" 1000 1000 =
        ⟨0, 0, 32768000 / 65535, 32768000 / 65535⟩ := by
  constructor
  · unfold decodePicasaCropRect
    rw [hlen]
    simp
  · decide

/-- C4 witness: the general decode shape instantiated at the spec's own
example, with the exact rational result. -/
theorem decodePicasaCropRect_spec_witness :
    decodePicasaCropRect "0000000080008000" 1000 1000 =
      ⟨0, 0, 32768000 / 65535, 32768000 / 65535⟩ :=
  (decodePicasaCropRect_spec "0000000080008000" 1000 1000 (by decide)).2

/-- C4 counterexample: `0x8000/0xFFFF * 1000` is `32768000/65535`, which is
not 500, so the decoded rectangle is not `{x:0, y:0, width:500, height:500}`. -/
theorem decodePicasaCropRect_claim_counterexample :
    decodePicasaCropRect "0000000080008000" 1000 1000 ≠ ⟨0, 0, 500, 500⟩
    ∧ (decodePicasaCropRect "0000000080008000" 1000 1000).width = 32768000 / 65535
    ∧ (32768000 : ℚ) / 65535 ≠ 500 := by decide

/-! ### The store round trip and the sorting bug (C2, C3) -/

/-- C2: the `isNew` check of `storePhotoWork` runs *after* the assignment
`anselData.photos[photoBasename] = photoWork`, so it is always false and
the mapping is never re-canonicalized: after storing `"b.jpg"` and then
the fresh key `"a.jpg"`, the mapping — and hence the serialized sidecar —
lists `"b.jpg"` first, not the sorted order the code's own comment (`-> We
have to sort the keys`) intends. -/
theorem storePhotoWork_sorting_bug :
    serializedPhotoOrder
      (storePhotoWork
        (storePhotoWork ⟨⟨[]⟩, none⟩ "b.jpg" [("flagged", JsVal.bool true)])
        "a.jpg" [("flagged", JsVal.bool true)]).anselData = ["b.jpg", "a.jpg"]
    ∧ sortStrings ["b.jpg", "a.jpg"] = ["a.jpg", "b.jpg"]
    ∧ (["b.jpg", "a.jpg"] : List String) ≠ ["a.jpg", "b.jpg"] := by decide

/-! ### Fetch dispatch (C5) -/

/-- C5: `fetchPhotoWork` returns the photo's own edit record when the own
mapping has one; otherwise, when legacy rules exist for the basename, the
Importer's translation of those rules; otherwise the empty record — and in
every case the snapshot passes through unchanged. -/
theorem fetchPhotoWork_spec (pm : ℚ × ℚ → PhotoWork → AffineMap)
    (data : DirectoryData) (name : String) (W H : ℚ) :
    (∀ pw, jsLookup data.anselData.photos name = some pw →
        fetchPhotoWork pm data name W H = (pw, data))
    ∧ (∀ pd rules, jsLookup data.anselData.photos name = none →
        data.picasaData = some pd → jsLookup pd name = some rules →
        fetchPhotoWork pm data name W H =
          ((createPhotoWorkFromPicasaRules pm rules W H).1, data))
    ∧ (jsLookup data.anselData.photos name = none →
        (∀ pd, data.picasaData = some pd → jsLookup pd name = none) →
        fetchPhotoWork pm data name W H = ([], data))
    ∧ (fetchPhotoWork pm data name W H).2 = data := by
  refine ⟨?_, ?_, ?_, ?_⟩
  · intro pw h
    simp only [fetchPhotoWork, h]
  · intro pd rules h₁ h₂ h₃
    simp only [fetchPhotoWork, h₁, h₂, h₃]
  · intro h₁ h₂
    cases hpd : data.picasaData with
    | none => simp only [fetchPhotoWork, h₁, hpd]
    | some pd => simp only [fetchPhotoWork, h₁, hpd, h₂ pd hpd]
  · cases h₁ : jsLookup data.anselData.photos name with
    | some pw => simp only [fetchPhotoWork, h₁]
    | none =>
      cases h₂ : data.picasaData with
      | none => simp only [fetchPhotoWork, h₁, h₂]
      | some pd =>
        cases h₃ : jsLookup pd name with
        | none => simp only [fetchPhotoWork, h₁, h₂, h₃]
        | some rules => simp only [fetchPhotoWork, h₁, h₂, h₃]

/-- C5 witness: a snapshot whose own mapping holds a record for `p.jpg` —
fetching returns that record and the unchanged snapshot. -/
theorem fetchPhotoWork_spec_witness :
    fetchPhotoWork (fun _ _ => ⟨1, 0, 0, 1, 0, 0⟩)
        ⟨⟨[("p.jpg", [("flagged", JsVal.bool true)])]⟩, none⟩ "p.jpg" 10 10 =
      ([("flagged", JsVal.bool true)],
       ⟨⟨[("p.jpg", [("flagged", JsVal.bool true)])]⟩, none⟩) :=
  (fetchPhotoWork_spec (fun _ _ => ⟨1, 0, 0, 1, 0, 0⟩)
      ⟨⟨[("p.jpg", [("flagged", JsVal.bool true)])]⟩, none⟩ "p.jpg" 10 10).1
    [("flagged", JsVal.bool true)] (by decide)

/-! ### The section parser (C10) -/

theorem jsKeys_jsSet_mem {α : Type} (m : JsObj α) (k : String) (v : α) (k' : String)
    (h : k' ∈ jsKeys (jsSet m k v)) : k' ∈ jsKeys m ∨ k' = k := by
  induction m with
  | nil =>
    simp [jsSet, jsKeys] at h
    exact Or.inr h
  | cons p rest ih =>
    obtain ⟨k₁, v₁⟩ := p
    by_cases hk : k₁ == k
    · simp only [jsSet, hk, if_pos, jsKeys, List.map_cons, List.mem_cons] at h
      rcases h with he | hm
      · exact Or.inr he
      · exact Or.inl (by simp [jsKeys, hm])
    · simp only [jsSet, hk, Bool.false_eq_true, if_neg, ite_false, jsKeys, List.map_cons,
        List.mem_cons] at h
      rcases h with he | hm
      · exact Or.inl (by simp [jsKeys, he])
      · rcases ih hm with hm' | he'
        · exact Or.inl (by simp [jsKeys] at hm' ⊢; exact Or.inr hm')
        · exact Or.inr he'

theorem flush_photos_keys (e : Option (JsObj (List String))) (s : IniState) (k : String)
    (h : k ∈ jsKeys (flushCurrentSection e s).photos) :
    k ∈ jsKeys s.photos ∨ (s.currentSectionKey = some k ∧ k ≠ "") := by
  unfold flushCurrentSection at h
  cases hc : s.currentSectionKey with
  | none =>
    rw [hc] at h
    exact Or.inl h
  | some k₀ =>
    rw [hc] at h
    by_cases h0 : k₀ = ""
    · simp only [h0, ne_eq, not_true_eq_false, ite_false] at h
      exact Or.inl h
    · simp only [ne_eq, h0, not_false_eq_true, ite_true] at h
      rcases jsKeys_jsSet_mem _ _ _ _ h with hm | he
      · exact Or.inl hm
      · exact Or.inr ⟨by rw [he], he ▸ h0⟩

theorem parsePicasa_keys_aux (e : Option (JsObj (List String))) (lines : List String) :
    ∀ (s : IniState) (k : String),
      k ∈ jsKeys (flushCurrentSection e (lines.foldl (picasaLineStep e) s)).photos →
      k ∈ jsKeys s.photos ∨
        ((s.currentSectionKey = some k ∨ k ∈ lines.filterMap sectionHeaderMatch)
          ∧ k ≠ "") := by
  induction lines with
  | nil =>
    intro s k h
    simp only [List.foldl_nil] at h
    rcases flush_photos_keys e s k h with hm | ⟨hc, hne⟩
    · exact Or.inl hm
    · exact Or.inr ⟨Or.inl hc, hne⟩
  | cons line rest ih =>
    intro s k h
    simp only [List.foldl_cons] at h
    have h' := ih (picasaLineStep e s line) k h
    cases hm : sectionHeaderMatch line with
    | some key =>
      simp only [picasaLineStep, hm] at h'
      rcases h' with hph | ⟨hor, hne⟩
      · rcases flush_photos_keys e s k hph with hm2 | ⟨hc2, hne2⟩
        · exact Or.inl hm2
        · exact Or.inr ⟨Or.inl hc2, hne2⟩
      · refine Or.inr ⟨Or.inr ?_, hne⟩
        rw [List.filterMap_cons, hm]
        rcases hor with he | hrest
        · rw [Option.some.injEq] at he
          rw [he]
          exact List.mem_cons_self _ _
        · exact List.mem_cons_of_mem _ hrest
    | none =>
      simp only [picasaLineStep, hm] at h'
      rcases h' with hph | ⟨hor, hne⟩
      · exact Or.inl hph
      · refine Or.inr ⟨?_, hne⟩
        rw [List.filterMap_cons, hm]
        exact hor

/-- C10 (amended): the output mapping's keys all come from non-empty
`[name]` headers (a section opened by `[]` is never recorded) — but body
lines appearing before the first section header are *not* discarded: the
accumulator is only reset when a truthy section flushes, so such lines are
prepended to the first recorded section's rules, as the two concrete
parses show. -/
theorem parsePicasaLines_spec (edited : Option (JsObj (List String)))
    (lines : List String) :
    (∀ k ∈ jsKeys (parsePicasaLines edited lines),
        k ≠ "" ∧ k ∈ lines.filterMap sectionHeaderMatch)
    ∧ parsePicasaLines none ["x", "[a]", "y"] = [("a", ["x", "y"])]
    ∧ parsePicasaLines none ["[]", "u", "[a]", "y"] = [("a", ["u", "y"])] := by
  refine ⟨?_, by decide, by decide⟩
  intro k hk
  have h := parsePicasa_keys_aux edited lines ⟨none, [], []⟩ k hk
  rcases h with hm | ⟨hor, hne⟩
  · simp [jsKeys] at hm
  · rcases hor with hc | hmem
    · exact absurd hc (by simp)
    · exact ⟨hne, hmem⟩

/-- C10 witness: the key `"a"` of the example parse indeed comes from a
non-empty header line. -/
theorem parsePicasaLines_spec_witness :
    "a" ≠ "" ∧ "a" ∈ ["x", "[a]", "y"].filterMap sectionHeaderMatch :=
  (parsePicasaLines_spec none ["x", "[a]", "y"]).1 "a" (by decide)

/-- C3: storing a non-empty record and fetching the same basename back
(with no legacy rules competing) returns the canonicalized record, which
reads identically to the stored one at every key; storing an empty record
followed by a fetch returns an empty record, and when the own mapping is
thereby left empty the store cycle deletes the existing sidecar. -/
theorem storeFetch_roundtrip (pm : ℚ × ℚ → PhotoWork → AffineMap)
    (data : DirectoryData) (name : String) (rec : PhotoWork) (W H : ℚ)
    (hnd : (jsKeys data.anselData.photos).Nodup)
    (hleg : ∀ pd, data.picasaData = some pd → jsLookup pd name = none) :
    (rec ≠ [] →
      (fetchPhotoWork pm (storePhotoWork data name rec) name W H).1 = toCanonical rec
      ∧ ∀ k, jsLookup (toCanonical rec) k = jsLookup rec k)
    ∧ (rec = [] →
      (fetchPhotoWork pm (storePhotoWork data name rec) name W H).1 = [])
    ∧ (rec = [] → jsKeys (storePhotoWork data name rec).anselData.photos = [] →
      storeCycleAction (some (storePhotoWork data name rec)) true = DiskAction.unlink) := by
  refine ⟨?_, ?_, ?_⟩
  · intro hne
    have hlen : ¬ ((jsKeys rec).length = 0) := by
      cases rec with
      | nil => exact absurd rfl hne
      | cons p rest => simp [jsKeys]
    have hstore : storePhotoWork data name rec =
        ⟨⟨jsSet data.anselData.photos name (toCanonical rec)⟩, data.picasaData⟩ := by
      unfold storePhotoWork
      rw [if_neg hlen]
      simp only [jsLookup_jsSet_self, Option.isSome_some, Bool.not_true,
        Bool.false_eq_true, if_neg, ite_false]
    refine ⟨?_, fun k => toCanonical_lookup rec k⟩
    rw [hstore]
    simp only [fetchPhotoWork, jsLookup_jsSet_self]
  · intro hemp
    subst hemp
    have hstore : storePhotoWork data name [] =
        ⟨⟨jsDelete data.anselData.photos name⟩, data.picasaData⟩ := rfl
    rw [hstore]
    have hdel : jsLookup (jsDelete data.anselData.photos name) name = none :=
      jsLookup_jsDelete_self _ _ hnd
    cases hpd : data.picasaData with
    | none => simp only [fetchPhotoWork, hdel, hpd]
    | some pd => simp only [fetchPhotoWork, hdel, hpd, hleg pd hpd]
  · intro hemp hkeys
    unfold storeCycleAction
    simp [hkeys]

/-- C3 witness: store the flagged record for `p.jpg` into an empty
directory and fetch it back. -/
theorem storeFetch_roundtrip_witness :
    ((fetchPhotoWork (fun _ _ => ⟨1, 0, 0, 1, 0, 0⟩)
        (storePhotoWork ⟨⟨[]⟩, none⟩ "p.jpg" [("flagged", JsVal.bool true)])
        "p.jpg" 10 10).1 = toCanonical [("flagged", JsVal.bool true)])
    ∧ ∀ k, jsLookup (toCanonical [("flagged", JsVal.bool true)]) k =
        jsLookup [("flagged", JsVal.bool true)] k :=
  (storeFetch_roundtrip (fun _ _ => ⟨1, 0, 0, 1, 0, 0⟩) ⟨⟨[]⟩, none⟩ "p.jpg"
      [("flagged", JsVal.bool true)] 10 10 (by decide)
      (fun pd h => Option.noConfusion h)).1 (by decide)

/-- C10 counterexample: the body line `"x"` precedes the first section
header yet ends up in the recorded section `"a"` — it is not silently
discarded as the claim states. -/
theorem parsePicasaLines_claim_counterexample :
    parsePicasaLines none ["x", "[a]", "y"] = [("a", ["x", "y"])]
    ∧ jsLookup (parsePicasaLines none ["x", "[a]", "y"]) "a" = some ["x", "y"]
    ∧ "x" ∈ (["x", "y"] : List String) := by decide

/-! ### Duplicate-crop anomalies (C6) -/

theorem endCrop_nil (c : Option String) : endCrop c [] = c := by
  cases c <;> rfl

theorem newDupCount_nil (c : Option String) : newDupCount c [] = 0 := by
  cases c <;> rfl

theorem endCrop_append (c : Option String) (vs ws : List String) :
    endCrop c (vs ++ ws) = endCrop (endCrop c vs) ws := by
  cases c with
  | some v => rfl
  | none =>
    cases vs with
    | nil => rfl
    | cons v vs => rfl

theorem newDupCount_append (c : Option String) (vs ws : List String) :
    newDupCount c (vs ++ ws) = newDupCount c vs + newDupCount (endCrop c vs) ws := by
  cases c with
  | some v => simp [newDupCount, endCrop, List.filter_append]
  | none =>
    cases vs with
    | nil => simp [newDupCount, endCrop]
    | cons v vs => simp [newDupCount, endCrop, List.filter_append]

theorem scanFilter_crop (s : ScanState) (f : String) :
    (scanFilter s f).picasaCropRect = endCrop s.picasaCropRect (cropsOfFilter f)
    ∧ dupCount (scanFilter s f).importProblems =
        dupCount s.importProblems + newDupCount s.picasaCropRect (cropsOfFilter f) := by
  unfold scanFilter cropsOfFilter
  cases htilt : tiltFilterMatch f with
  | some g => simp [endCrop_nil, newDupCount_nil]
  | none =>
    cases hcf : cropFilterMatch f with
    | some hex =>
      cases hs : s.picasaCropRect with
      | none => simp [endCrop, newDupCount]
      | some first =>
        by_cases he : first = hex
        · simp [hs, he, endCrop, newDupCount]
        · have hne : hex ≠ first := fun h => he h.symm
          simp [hs, he, endCrop, newDupCount, dupCount, List.filter_append,
            Problem.isDuplicateCrop, hne]
    | none =>
      by_cases hlen : f.length ≠ 0
      · simp [hlen, endCrop_nil, newDupCount_nil, dupCount, List.filter_append,
          Problem.isDuplicateCrop]
      · simp [hlen, endCrop_nil, newDupCount_nil]

theorem scanFilter_fold_crop (fs : List String) :
    ∀ s : ScanState,
      ((fs.foldl scanFilter s).picasaCropRect =
        endCrop s.picasaCropRect ((fs.map cropsOfFilter).flatten))
      ∧ dupCount ((fs.foldl scanFilter s).importProblems) =
          dupCount s.importProblems +
            newDupCount s.picasaCropRect ((fs.map cropsOfFilter).flatten) := by
  induction fs with
  | nil =>
    intro s
    simp [endCrop_nil, newDupCount_nil]
  | cons f fs ih =>
    intro s
    simp only [List.foldl_cons, List.map_cons, List.flatten_cons]
    obtain ⟨ih1, ih2⟩ := ih (scanFilter s f)
    obtain ⟨h1, h2⟩ := scanFilter_crop s f
    refine ⟨?_, ?_⟩
    · rw [ih1, h1, ← endCrop_append]
    · rw [ih2, h2, h1, Nat.add_assoc, ← newDupCount_append]

theorem scanRule_crop (s : ScanState) (rule : String) :
    (scanRule s rule).picasaCropRect = endCrop s.picasaCropRect (cropsOfRule rule)
    ∧ dupCount (scanRule s rule).importProblems =
        dupCount s.importProblems + newDupCount s.picasaCropRect (cropsOfRule rule) := by
  unfold scanRule cropsOfRule
  cases hrot : rotateRuleMatch rule with
  | some n => simp [endCrop_nil, newDupCount_nil]
  | none =>
    by_cases hstar : rule = "star=yes"
    · simp [hstar, endCrop_nil, newDupCount_nil]
    · simp only [hstar, ite_false, if_neg, not_false_eq_true]
      cases hfil : filtersRuleMatch rule with
      | some rest =>
        simpa using scanFilter_fold_crop (rest.splitOn ";") s
      | none =>
        cases hcr : cropRuleMatch rule with
        | some hex =>
          cases hs : s.picasaCropRect with
          | none => simp [endCrop, newDupCount]
          | some first =>
            by_cases he : first = hex
            · simp [hs, he, endCrop, newDupCount]
            · have hne : hex ≠ first := fun h => he h.symm
              simp [hs, he, endCrop, newDupCount, dupCount, List.filter_append,
                Problem.isDuplicateCrop, hne]
        | none =>
          by_cases hign : isIgnoredRule rule = true
          · simp [hign, endCrop_nil, newDupCount_nil]
          · simp [hign, endCrop_nil, newDupCount_nil, dupCount, List.filter_append,
              Problem.isDuplicateCrop]

theorem scanRule_fold_crop (rules : List String) :
    ∀ s : ScanState,
      ((rules.foldl scanRule s).picasaCropRect =
        endCrop s.picasaCropRect ((rules.map cropsOfRule).flatten))
      ∧ dupCount ((rules.foldl scanRule s).importProblems) =
          dupCount s.importProblems +
            newDupCount s.picasaCropRect ((rules.map cropsOfRule).flatten) := by
  induction rules with
  | nil =>
    intro s
    simp [endCrop_nil, newDupCount_nil]
  | cons rule rules ih =>
    intro s
    simp only [List.foldl_cons, List.map_cons, List.flatten_cons]
    obtain ⟨ih1, ih2⟩ := ih (scanRule s rule)
    obtain ⟨h1, h2⟩ := scanRule_crop s rule
    refine ⟨?_, ?_⟩
    · rw [ih1, h1, ← endCrop_append]
    · rw [ih2, h2, h1, Nat.add_assoc, ← newDupCount_append]

/-- C6: during rule-to-edit translation the first-seen packed crop value is
the one kept; each later differing value adds exactly one duplicate-crop
anomaly while identical later values add none (`newDupCount` counts the
later values differing from the first); the reconciliation stage adds no
duplicate-crop anomaly; and translation never aborts — the returned record
is the scanned record, at most extended with a crop rectangle. -/
theorem createPhotoWorkFromPicasaRules_spec
    (pm : ℚ × ℚ → PhotoWork → AffineMap) (rules : List String) (W H : ℚ) :
    (scanPicasaRules rules).picasaCropRect = (cropsOfRules rules).head?
    ∧ dupCount (scanPicasaRules rules).importProblems =
        newDupCount none (cropsOfRules rules)
    ∧ dupCount (createPhotoWorkFromPicasaRules pm rules W H).2 =
        dupCount (scanPicasaRules rules).importProblems
    ∧ ((createPhotoWorkFromPicasaRules pm rules W H).1 =
          (scanPicasaRules rules).photoWork
       ∨ ∃ r, (createPhotoWorkFromPicasaRules pm rules W H).1 =
          jsSet (scanPicasaRules rules).photoWork "cropRect" (JsVal.rect r)) := by
  obtain ⟨h1, h2⟩ := scanRule_fold_crop rules ⟨[], none, []⟩
  have hscan1 : (scanPicasaRules rules).picasaCropRect = (cropsOfRules rules).head? := by
    rw [scanPicasaRules, h1]
    rfl
  have hscan2 : dupCount (scanPicasaRules rules).importProblems =
      newDupCount none (cropsOfRules rules) := by
    rw [scanPicasaRules, h2]
    simp [dupCount, cropsOfRules]
  refine ⟨hscan1, hscan2, ?_, ?_⟩
  · simp only [createPhotoWorkFromPicasaRules]
    by_cases hcond : (cropRectTruthy (scanPicasaRules rules).picasaCropRect
        || jsTruthy (jsLookup (scanPicasaRules rules).photoWork "tilt")) = true
    · simp only [hcond, if_pos]
      cases hcrop : (scanPicasaRules rules).picasaCropRect with
      | none => rfl
      | some v =>
        by_cases hlen : 16 < v.length
        · simp [hlen, dupCount, List.filter_append, Problem.isDuplicateCrop]
        · simp [hlen]
    · simp only [Bool.not_eq_true] at hcond
      simp only [hcond, Bool.false_eq_true, if_neg, ite_false]
  · simp only [createPhotoWorkFromPicasaRules]
    by_cases hcond : (cropRectTruthy (scanPicasaRules rules).picasaCropRect
        || jsTruthy (jsLookup (scanPicasaRules rules).photoWork "tilt")) = true
    · simp only [hcond, if_pos]
      exact Or.inr ⟨_, rfl⟩
    · simp only [Bool.not_eq_true] at hcond
      simp only [hcond, Bool.false_eq_true, if_neg, ite_false]
      exact Or.inl trivial


/-! ### The bounded registry and its eviction sweep (C7) -/

theorem filter_length_split {α : Type} (l : List α) (q : α → Bool) :
    (l.filter q).length + (l.filter (fun a => !(q a))).length = l.length := by
  induction l with
  | nil => rfl
  | cons a as ih =>
    cases hq : q a <;> simp [List.filter_cons, hq, ← ih] <;> omega

theorem sweepAux_cons_skip (ks : List String) (k : String) (w : DirectoryWork)
    (m : JsObj DirectoryWork) (n : ℤ) (h : ∀ k' ∈ ks, k' ≠ k) :
    ks.foldl sweepStep ⟨(k, w) :: m, n⟩ =
      ⟨(k, w) :: (ks.foldl sweepStep ⟨m, n⟩).byPath,
       (ks.foldl sweepStep ⟨m, n⟩).cacheSize⟩ := by
  induction ks generalizing m n with
  | nil => rfl
  | cons k' ks ih =>
    have hk' : k' ≠ k := h k' (List.mem_cons_self _ _)
    have hbeq : ¬ ((k == k') = true) := by
      simp only [beq_iff_eq]
      exact fun he => hk' he.symm
    have htail : ∀ k'' ∈ ks, k'' ≠ k := fun k'' hm => h k'' (List.mem_cons_of_mem _ hm)
    simp only [List.foldl_cons]
    cases hl : jsLookup m k' with
    | none =>
      have e₁ : sweepStep ⟨(k, w) :: m, n⟩ k' = ⟨(k, w) :: m, n⟩ := by
        unfold sweepStep
        rw [jsLookup_cons, if_neg hbeq, hl]
      have e₂ : sweepStep ⟨m, n⟩ k' = ⟨m, n⟩ := by
        unfold sweepStep
        rw [hl]
      rw [e₁, e₂]
      exact ih m n htail
    | some w' =>
      by_cases hidle : w'.isIdle = true
      · have e₁ : sweepStep ⟨(k, w) :: m, n⟩ k' = ⟨(k, w) :: jsDelete m k', n - 1⟩ := by
          unfold sweepStep
          rw [jsLookup_cons, if_neg hbeq, hl]
          simp only [hidle, if_pos, jsDelete, hbeq, Bool.false_eq_true, if_neg, ite_false,
            ite_true]
        have e₂ : sweepStep ⟨m, n⟩ k' = ⟨jsDelete m k', n - 1⟩ := by
          unfold sweepStep
          rw [hl]
          simp only [hidle, ite_true]
        rw [e₁, e₂]
        exact ih (jsDelete m k') (n - 1) htail
      · have e₁ : sweepStep ⟨(k, w) :: m, n⟩ k' = ⟨(k, w) :: m, n⟩ := by
          unfold sweepStep
          rw [jsLookup_cons, if_neg hbeq, hl]
          simp only [hidle, Bool.false_eq_true, if_neg, ite_false]
        have e₂ : sweepStep ⟨m, n⟩ k' = ⟨m, n⟩ := by
          unfold sweepStep
          rw [hl]
          simp only [hidle, Bool.false_eq_true, if_neg, ite_false]
        rw [e₁, e₂]
        exact ih m n htail

theorem evictionSweep_eq (m : JsObj DirectoryWork) (n : ℤ)
    (hnd : (jsKeys m).Nodup) :
    evictionSweep ⟨m, n⟩ =
      ⟨m.filter (fun e => !e.2.isIdle),
       n - ((m.filter (fun e => e.2.isIdle)).length : ℤ)⟩ := by
  induction m generalizing n with
  | nil => simp [evictionSweep, jsKeys]
  | cons p rest ih =>
    obtain ⟨k, w⟩ := p
    have hnd' : (jsKeys rest).Nodup := by
      simp only [jsKeys, List.map_cons, List.nodup_cons] at hnd
      exact hnd.2
    have hknot : k ∉ jsKeys rest := by
      simp only [jsKeys, List.map_cons, List.nodup_cons] at hnd
      exact hnd.1
    unfold evictionSweep
    simp only [jsKeys, List.map_cons, List.foldl_cons]
    have e₀ : sweepStep ⟨(k, w) :: rest, n⟩ k =
        if w.isIdle then ⟨rest, n - 1⟩ else ⟨(k, w) :: rest, n⟩ := by
      unfold sweepStep
      rw [jsLookup_cons, if_pos (beq_self_eq_true k)]
      by_cases hidle : w.isIdle = true
      · simp [hidle, jsDelete]
      · simp [hidle]
    rw [e₀]
    by_cases hidle : w.isIdle = true
    · rw [if_pos hidle]
      have hin := ih (n - 1) hnd'
      unfold evictionSweep at hin
      simp only [jsKeys] at hin
      rw [hin]
      simp only [List.filter_cons, hidle, Bool.not_true, Bool.false_eq_true, if_neg,
        ite_false, ite_true, List.length_cons]
      rw [Registry.mk.injEq]
      refine ⟨rfl, ?_⟩
      push_cast
      ring
    · rw [if_neg hidle]
      have hskip := sweepAux_cons_skip (rest.map (fun p => p.1)) k w rest n
        (fun k' hm he => hknot (he ▸ hm))
      rw [hskip]
      have hin := ih n hnd'
      unfold evictionSweep at hin
      simp only [jsKeys] at hin
      rw [hin]
      simp only [List.filter_cons, hidle, Bool.not_false, Bool.false_eq_true, if_neg,
        ite_false, ite_true]

theorem getDirectoryWork_hit (reg : Registry) (path : String) (w : DirectoryWork)
    (h : jsLookup reg.byPath path = some w) : getDirectoryWork reg path = reg := by
  unfold getDirectoryWork
  rw [h]

theorem getDirectoryWork_miss (reg : Registry) (path : String)
    (h : jsLookup reg.byPath path = none) :
    getDirectoryWork reg path =
      ⟨jsSet (if maxDirectoryWorkCacheSize ≤ reg.cacheSize then evictionSweep reg
          else reg).byPath path newDirectoryWork,
       (if maxDirectoryWorkCacheSize ≤ reg.cacheSize then evictionSweep reg
          else reg).cacheSize + 1⟩ := by
  unfold getDirectoryWork
  rw [h]

theorem registry_fold_invariant (paths : List String) :
    (∀ e ∈ (paths.foldl getDirectoryWork emptyRegistry).byPath, e.2.isIdle = true)
    ∧ (jsKeys (paths.foldl getDirectoryWork emptyRegistry).byPath).Nodup
    ∧ (paths.foldl getDirectoryWork emptyRegistry).cacheSize =
        ((paths.foldl getDirectoryWork emptyRegistry).byPath.length : ℤ)
    ∧ (paths.foldl getDirectoryWork emptyRegistry).byPath.length ≤ 100 := by
  induction paths using List.reverseRecOn with
  | nil => simp [emptyRegistry, jsKeys]
  | append_singleton ps p ih =>
    rw [List.foldl_append, List.foldl_cons, List.foldl_nil]
    obtain ⟨hidle, hnd, hsz, hlen⟩ := ih
    cases hl : jsLookup (ps.foldl getDirectoryWork emptyRegistry).byPath p with
    | some w =>
      rw [getDirectoryWork_hit _ _ w hl]
      exact ⟨hidle, hnd, hsz, hlen⟩
    | none =>
      rw [getDirectoryWork_miss _ _ hl]
      by_cases hcap : maxDirectoryWorkCacheSize ≤
          (ps.foldl getDirectoryWork emptyRegistry).cacheSize
      · rw [if_pos hcap]
        have hsweep := evictionSweep_eq (ps.foldl getDirectoryWork emptyRegistry).byPath
          (ps.foldl getDirectoryWork emptyRegistry).cacheSize hnd
        have hfilter_empty :
            (ps.foldl getDirectoryWork emptyRegistry).byPath.filter
              (fun e => !e.2.isIdle) = [] := by
          rw [List.filter_eq_nil_iff]
          intro e he
          simp [hidle e he]
        have hfilter_all :
            (ps.foldl getDirectoryWork emptyRegistry).byPath.filter
              (fun e => e.2.isIdle) = (ps.foldl getDirectoryWork emptyRegistry).byPath :=
          List.filter_eq_self.mpr (fun e he => hidle e he)
        rw [hsweep, hfilter_empty, hfilter_all]
        refine ⟨?_, ?_, ?_, ?_⟩
        · intro e he
          simp only [jsSet] at he
          rcases List.mem_singleton.mp he with rfl
          rfl
        · simp [jsSet, jsKeys]
        · simp only [jsSet, List.length_cons, List.length_nil]
          rw [hsz]
          push_cast
          ring
        · simp [jsSet]
      · rw [if_neg hcap]
        rw [jsSet_append_of_absent _ _ _ hl]
        have hnotin : p ∉ jsKeys (ps.foldl getDirectoryWork emptyRegistry).byPath :=
          (jsLookup_eq_none_iff _ _).mp hl
        refine ⟨?_, ?_, ?_, ?_⟩
        · intro e he
          rcases List.mem_append.mp he with hm | hm
          · exact hidle e hm
          · rcases List.mem_singleton.mp hm with rfl
            rfl
        · simp only [jsKeys, List.map_append, List.map_cons, List.map_nil]
          rw [List.nodup_append]
          refine ⟨hnd, List.nodup_singleton p, ?_⟩
          intro a ha hb
          rw [List.mem_singleton] at hb
          subst hb
          exact hnotin ha
        · simp only [List.length_append, List.length_cons, List.length_nil]
          rw [hsz]
          push_cast
          ring
        · have : (ps.foldl getDirectoryWork emptyRegistry).cacheSize < 100 := by
            simpa [maxDirectoryWorkCacheSize] using hcap
          rw [hsz] at this
          simp only [List.length_append, List.length_cons, List.length_nil]
          omega

/-- C7: when a path is requested that is not in the registry and the size
counter is at or past the cap, the sweep evicts exactly the idle instances
and appends the new one; the registry can only exceed the cap right after
an insertion if non-idle instances remain resident; and any sequence of
accesses on an initially empty registry (whose instances are all idle)
keeps at most 100 entries, all idle. -/
theorem getDirectoryWork_spec (reg : Registry) (path : String)
    (habs : jsLookup reg.byPath path = none)
    (hnd : (jsKeys reg.byPath).Nodup)
    (hsz : reg.cacheSize = (reg.byPath.length : ℤ)) :
    (maxDirectoryWorkCacheSize ≤ reg.cacheSize →
        (getDirectoryWork reg path).byPath =
          reg.byPath.filter (fun e => !e.2.isIdle) ++ [(path, newDirectoryWork)])
    ∧ (maxDirectoryWorkCacheSize < (getDirectoryWork reg path).cacheSize →
        ∃ e ∈ (getDirectoryWork reg path).byPath, e.2.isIdle = false)
    ∧ (∀ paths : List String,
        (paths.foldl getDirectoryWork emptyRegistry).byPath.length ≤ 100
        ∧ ∀ e ∈ (paths.foldl getDirectoryWork emptyRegistry).byPath,
            e.2.isIdle = true) := by
  have hsweep := evictionSweep_eq reg.byPath reg.cacheSize hnd
  have habs_filter : jsLookup (reg.byPath.filter (fun e => !e.2.isIdle)) path = none := by
    rw [jsLookup_eq_none_iff]
    intro hm
    rw [jsLookup_eq_none_iff] at habs
    apply habs
    simp only [jsKeys, List.mem_map] at hm ⊢
    obtain ⟨e, he, hee⟩ := hm
    exact ⟨e, (List.filter_sublist _).mem he, hee⟩
  have hmain : maxDirectoryWorkCacheSize ≤ reg.cacheSize →
      (getDirectoryWork reg path).byPath =
        reg.byPath.filter (fun e => !e.2.isIdle) ++ [(path, newDirectoryWork)] := by
    intro hcap
    rw [getDirectoryWork_miss _ _ habs, if_pos hcap, hsweep]
    exact jsSet_append_of_absent _ _ _ habs_filter
  refine ⟨hmain, ?_, ?_⟩
  · intro hover
    by_cases hcap : maxDirectoryWorkCacheSize ≤ reg.cacheSize
    · have hsize : (getDirectoryWork reg path).cacheSize =
          reg.cacheSize - ((reg.byPath.filter (fun e => e.2.isIdle)).length : ℤ) + 1 := by
        rw [getDirectoryWork_miss _ _ habs, if_pos hcap, hsweep]
      have hsplit := filter_length_split reg.byPath (fun e => e.2.isIdle)
      have hpos : 0 < (reg.byPath.filter (fun e => !e.2.isIdle)).length := by
        rw [hsize, hsz] at hover
        simp only [maxDirectoryWorkCacheSize] at hover
        omega
      obtain ⟨e, he⟩ := List.exists_mem_of_length_pos hpos
      refine ⟨e, ?_, ?_⟩
      · rw [hmain hcap]
        exact List.mem_append_left _ he
      · have := (List.mem_filter.mp he).2
        simpa using this
    · exfalso
      have hsize : (getDirectoryWork reg path).cacheSize = reg.cacheSize + 1 := by
        rw [getDirectoryWork_miss _ _ habs, if_neg hcap]
      rw [hsize] at hover
      simp only [maxDirectoryWorkCacheSize, not_le] at hover hcap
      omega
  · intro paths
    exact ⟨(registry_fold_invariant paths).2.2.2, (registry_fold_invariant paths).1⟩

/-- C7 witness: on a full registry of 100 idle instances, requesting a new
path evicts all of them and leaves just the new instance. -/
theorem getDirectoryWork_spec_witness :
    (getDirectoryWork fullRegistry "newdir").byPath =
      fullRegistry.byPath.filter (fun e => !e.2.isIdle) ++
        [("newdir", newDirectoryWork)] :=
  (getDirectoryWork_spec fullRegistry "newdir" (by decide) (by decide) (by decide)).1
    (by decide)

end Ansel

end AnselVerification
